import Mathlib

/-!
# Verification of the `BettingAnalyzer` odds-evaluation core

Shallow embedding of `src/utils/models.py` (`PlayerProjection`,
`BettingAnalyzer`).  Python floats are modelled as exact rationals (`ℚ`),
Python `int` as `ℤ`, Python dict-literal output records as association
lists from string keys to a `Val` sum type, and Python `KeyError` on a
missing dictionary key as `Except.error` carrying the missing key.
`dict.get(k, default)` is modelled by `Option`/`getD`; a bracket access
`d[k]` is modelled by `getKey`, which fails the way `KeyError` does.
Sequencing of possibly-raising steps is the explicit `andThen`
combinator, in the evaluation order of the Python statements.
-/

namespace Omni

/-- A Python value stored in an output record: a string, an integer, a
float (modelled as an exact rational) or `None`. -/
inductive Val where
  | str (s : String)
  | int (n : ℤ)
  | rat (q : ℚ)
  | null

/-- An output record, as built by a Python dict literal: an association
list of string keys to values, in the order the literal writes them. -/
abbrev Record := List (String × Val)

/-- One bookmaker entry of a market's `markets` list.  Both fields are
optional because the Python dicts may lack either key. -/
structure Book where
  bookmaker : Option String
  odds : Option ℤ

/-- A market record: `player` and `type` are optional (read with
`.get`/`[...]` in the source); `market.get('markets', [])` makes a missing
books list behave exactly like the empty list, so it is stored plain. -/
structure Market where
  player : Option String
  type : Option String
  markets : List Book

/-- `PlayerProjection`: `name`, `team`, `position` come from `.get` (hence
optional); `stats` is the mapping produced by `_calculate_stats`. -/
structure PlayerProjection where
  name : Option String
  team : Option String
  position : Option String
  stats : List (String × ℚ)

/-- `PlayerProjection._calculate_stats`: every raw field is read with
`data.get(key, 0)`. -/
def calculateStats (data : List (String × ℚ)) : List (String × ℚ) :=
  let get := fun k => ((data.lookup k).getD 0)
  [("hits", get ("avg") * get ("ab") + get ("bb") * (1/4)),
   ("home_runs", get ("hr_rate") * get ("ab")),
   ("strikeouts", get ("k_rate") * get ("ab")),
   ("rbis", get ("rbi_rate") * get ("pa")),
   ("walks", get ("bb_rate") * get ("pa"))]

/-- `BettingAnalyzer._convert_odds`:
`100 / (odds + 100) if odds > 0 else abs(odds) / (abs(odds) + 100)`. -/
def convertOdds (odds : ℤ) : ℚ :=
  if odds > 0 then 100 / ((odds : ℚ) + 100)
  else |(odds : ℚ)| / (|(odds : ℚ)| + 100)

/-- `BettingAnalyzer._calculate_arbitrage`, with the locals `p1`, `p2` of
the source inlined: `1 - (p1 + p2) if p1 + p2 < 1 else 0`. -/
def calculateArbitrage (odds1 odds2 : ℤ) : ℚ :=
  if convertOdds odds1 + convertOdds odds2 < 1 then
    1 - (convertOdds odds1 + convertOdds odds2)
  else 0

/-- Round-half-to-even to an integer, the convention of Python `round`. -/
def roundHalfEven (x : ℚ) : ℤ :=
  if x - ⌊x⌋ < 1/2 then ⌊x⌋
  else if 1/2 < x - ⌊x⌋ then ⌊x⌋ + 1
  else if ⌊x⌋ % 2 = 0 then ⌊x⌋ else ⌊x⌋ + 1

/-- Python `round(x, n)`: round-half-to-even at `n` decimal places. -/
def roundTo (n : ℕ) (x : ℚ) : ℚ :=
  ((roundHalfEven (x * 10 ^ n) : ℚ)) / 10 ^ n

/-- Bracket access `d[k]`: `KeyError` (modelled as `Except.error` carrying
the missing key's name) when the key is absent. -/
def getKey {α : Type} (o : Option α) (k : String) : Except String α :=
  match o with
  | some a => Except.ok a
  | none => Except.error k

/-- Sequencing of statements each of which may raise: the Python
exception propagates past the rest. -/
def andThen {α β : Type} (e : Except String α) (f : α → Except String β) :
    Except String β :=
  match e with
  | Except.error s => Except.error s
  | Except.ok a => f a

/-- A projection's `name` attribute used as a dict value (it may be
Python `None`). -/
def optStr : Option String → Val
  | some s => Val.str s
  | none => Val.null

/-- The value-play dict literal of `analyze_odds` (lines 40-46): exactly
the keys `player`, `prop`, `odds`, `edge`, `book`, in this order. -/
def valuePlayRec (pl : Option String) (ty : String) (odds : ℤ) (edge : ℚ)
    (book : String) : Record :=
  [("player", optStr pl), ("prop", Val.str ty), ("odds", Val.int odds),
   ("edge", Val.rat edge), ("book", Val.str book)]

/-- The arbitrage-opportunity dict literal of `_check_arbitrage`
(lines 56-64). -/
def arbRec (pl ty b1 b2 : String) (o1 o2 : ℤ) (profit : ℚ) : Record :=
  [("player", Val.str pl), ("prop", Val.str ty), ("book1", Val.str b1),
   ("book2", Val.str b2), ("odds1", Val.int o1), ("odds2", Val.int o2),
   ("profit", Val.rat profit)]

/-- Body of the inner book loop of `analyze_odds` for one book: reads
`book['odds']` (may raise), computes the implied probability, reads the
stat with default 0, and when `stat_proj > implied_prob + 0.05` builds the
value-play record (which reads `book['bookmaker']`, possibly raising). -/
def valuePlayForBook (proj : PlayerProjection) (market : Market)
    (book : Book) : Except String (List Record) :=
  andThen (getKey book.odds ("odds")) (fun o =>
    andThen (getKey market.type ("type")) (fun ty =>
      if ((proj.stats.lookup ty).getD 0) / 100 > convertOdds o + 1/20 then
        andThen (getKey book.bookmaker ("bookmaker")) (fun bm =>
          Except.ok [valuePlayRec proj.name ty o
            (roundTo 3 (((proj.stats.lookup ty).getD 0) / 100 - convertOdds o)) bm])
      else
        Except.ok []))

/-- The inner book loop of `analyze_odds` over the whole books list,
collecting the appended value plays in order. -/
def processBooks (proj : PlayerProjection) (market : Market) :
    List Book → Except String (List Record)
  | [] => Except.ok []
  | b :: bs =>
      andThen (valuePlayForBook proj market b) (fun here =>
        andThen (processBooks proj market bs) (fun rest =>
          Except.ok (here ++ rest)))

/-- The comprehension of `_check_arbitrage` line 50:
`[(b['bookmaker'], b['odds']) for b in market.get('markets', []) if 'odds' in b]`.
A book without `odds` is filtered out; a kept book with no `bookmaker`
raises. -/
def collectOdds : List Book → Except String (List (String × ℤ))
  | [] => Except.ok []
  | b :: bs =>
      match b.odds with
      | none => collectOdds bs
      | some o =>
          andThen (getKey b.bookmaker ("bookmaker")) (fun bm =>
            andThen (collectOdds bs) (fun rest =>
              Except.ok ((bm, o) :: rest)))

/-- The append of `_check_arbitrage` lines 56-64: the dict literal reads
`market['player']` and `market['type']` (either may raise) and stores
`round(arb * 100, 2)` as the profit. -/
def emitArb (market : Market) (b1 b2 : String) (o1 o2 : ℤ) (arb : ℚ) :
    Except String Record :=
  andThen (getKey market.player ("player")) (fun pl =>
    andThen (getKey market.type ("type")) (fun ty =>
      Except.ok (arbRec pl ty b1 b2 o1 o2 (roundTo 2 (arb * 100)))))

/-- Inner loop of the pair scan of `_check_arbitrage` (lines 52-64): a
fixed first quote `(b1, o1)` against each later quote. -/
def arbInner (market : Market) (b1 : String) (o1 : ℤ) :
    List (String × ℤ) → Except String (List Record)
  | [] => Except.ok []
  | q :: rest =>
      andThen
        (if (o1 > 0 ∧ q.2 < 0) ∨ (o1 < 0 ∧ q.2 > 0) then
          if calculateArbitrage o1 q.2 > 0 then
            andThen (emitArb market b1 q.1 o1 q.2 (calculateArbitrage o1 q.2))
              (fun r => Except.ok [r])
          else Except.ok []
        else Except.ok [])
        (fun here =>
          andThen (arbInner market b1 o1 rest) (fun more =>
            Except.ok (here ++ more)))

/-- Outer loop of the pair scan of `_check_arbitrage` (line 51): every
quote against the quotes after it — every unordered pair once. -/
def arbPairs (market : Market) :
    List (String × ℤ) → Except String (List Record)
  | [] => Except.ok []
  | q :: rest =>
      andThen (arbInner market q.1 q.2 rest) (fun here =>
        andThen (arbPairs market rest) (fun more =>
          Except.ok (here ++ more)))

/-- `BettingAnalyzer._check_arbitrage`, returning the records it appends
to `self.arb_opportunities` (or the first `KeyError`). -/
def checkArbitrage (market : Market) : Except String (List Record) :=
  andThen (collectOdds market.markets) (fun odds => arbPairs market odds)

/-- The mutable state of a `BettingAnalyzer` instance: the projections
given to `__init__` and the two result lists it appends to. -/
structure AnalyzerState where
  projections : List PlayerProjection
  valuePlays : List Record
  arbOpportunities : List Record

/-- `next((p for p in self.projections if p.name == market.get('player')), None)`:
the first projection whose (optional) name equals the market's optional
player (Python `None == None` is true, as is `none == none` here). -/
def findProjection (ps : List PlayerProjection) (pl : Option String) :
    Option PlayerProjection :=
  ps.find? (fun p => p.name == pl)

/-- One iteration of the market loop of `analyze_odds`: skip when no
projection matches, otherwise run the book loop then `_check_arbitrage`,
appending both result lists.  (On a `KeyError` the Python object keeps
the appends made before the raise; no theorem below observes that
partial state, so the error result carries none.) -/
def analyzeMarket (st : AnalyzerState) (market : Market) :
    Except String AnalyzerState :=
  match findProjection st.projections market.player with
  | none => Except.ok st
  | some proj =>
      andThen (processBooks proj market market.markets) (fun vps =>
        andThen (checkArbitrage market) (fun arbs =>
          Except.ok ⟨st.projections, st.valuePlays ++ vps,
            st.arbOpportunities ++ arbs⟩))

/-- `BettingAnalyzer.analyze_odds`: the market loop. -/
def analyzeOdds (st : AnalyzerState) :
    List Market → Except String AnalyzerState
  | [] => Except.ok st
  | m :: ms => andThen (analyzeMarket st m) (fun st' => analyzeOdds st' ms)

/-- A book dict that has both its keys. -/
def wfBook (bm : String) (o : ℤ) : Book := ⟨some bm, some o⟩

/-- A market dict with both scalar keys present and well-formed books,
built from a list of (bookmaker, odds) quotes. -/
def wfMarket (pl ty : String) (qs : List (String × ℤ)) : Market :=
  ⟨some pl, some ty, qs.map (fun q => wfBook q.1 q.2)⟩

/-- Specification-side value-play scan, written from the spec's words:
for each bookmaker quote, emit a ValuePlay exactly when
`statProjection > impliedProbability + MIN_EDGE` with `MIN_EDGE = 0.05`,
storing the edge `statProjection − impliedProbability` rounded to 3
decimal places.  Compared with `processBooks` by refinement. -/
def valuePlaysSpec (proj : PlayerProjection) (ty : String)
    (qs : List (String × ℤ)) : List Record :=
  qs.filterMap (fun q =>
    if ((proj.stats.lookup ty).getD 0) / 100 > convertOdds q.2 + 1/20 then
      some (valuePlayRec proj.name ty q.2
        (roundTo 3 (((proj.stats.lookup ty).getD 0) / 100 - convertOdds q.2)) q.1)
    else none)

/-- Specification-side arbitrage scan, written from the spec's
generalized all-pairs variant: for every unordered pair of quotes where
one has odds > 0 and the other odds < 0, the profit is
`1 − (prob1 + prob2)`; emit one opportunity for every pair whose profit
is strictly positive, storing `round(100 × profit, 2)`.  Compared with
`checkArbitrage` by refinement. -/
def arbAllPairsSpec (pl ty : String) :
    List (String × ℤ) → List Record
  | [] => []
  | q :: rest =>
      (rest.filterMap (fun q2 =>
        if ((q.2 > 0 ∧ q2.2 < 0) ∨ (q.2 < 0 ∧ q2.2 > 0)) ∧
            0 < 1 - (convertOdds q.2 + convertOdds q2.2) then
          some (arbRec pl ty q.1 q2.1 q.2 q2.2
            (roundTo 2 (100 * (1 - (convertOdds q.2 + convertOdds q2.2)))))
        else none))
      ++ arbAllPairsSpec pl ty rest

/-- Two successive `analyze_odds` calls on the same input. -/
def runTwice (st : AnalyzerState) (ms : List Market) :
    Except String AnalyzerState :=
  andThen (analyzeOdds st ms) (fun st1 => analyzeOdds st1 ms)

/-- Number of stored value plays of a (non-failing) run. -/
def vpCount (e : Except String AnalyzerState) : Option ℕ :=
  match e with
  | Except.ok st => some st.valuePlays.length
  | Except.error _ => none

/-- The key lists of the stored value-play records of a run. -/
def vpKeyLists (e : Except String AnalyzerState) :
    Option (List (List String)) :=
  match e with
  | Except.ok st => some (st.valuePlays.map (fun r => r.map Prod.fst))
  | Except.error _ => none

/-- A sample projection: player "Ace" projects 50 on the "hits" stat. -/
def exProj : PlayerProjection :=
  ⟨some ("Ace"), none, none, [(("hits"), 50)]⟩

/-- A sample single-quote market for "Ace": FD at +200. -/
def exMarket : Market := wfMarket ("Ace") ("hits") [(("FD"), 200)]

/-- A fresh analyzer holding only `exProj`. -/
def exSt0 : AnalyzerState := ⟨[exProj], [], []⟩

/-- Market whose qualifying pair has combined implied probability
`8283/8323 ≈ 0.9952`, between 0.98 and 1. -/
def c2Market : Market := wfMarket ("Ace") ("hits") [(("A"), 105), (("B"), -103)]

/-- A market matching `exProj` whose single book entry lacks `odds`. -/
def c6BadMarket : Market := ⟨some ("Ace"), some ("hits"), [⟨some ("X"), none⟩]⟩

/-- The spec scenario market: FanDuel +120, DraftKings -110. -/
def c8Market : Market :=
  wfMarket ("P") ("hits") [(("FanDuel"), 120), (("DraftKings"), -110)]

/-- Market whose qualifying pair has profit fraction `1/1019999`, which
rounds to a stored profit of exactly 0. -/
def c10Market : Market := wfMarket ("P") ("hits") [(("A"), 10000), (("B"), -9999)]

/-- The single value play produced by `exSt0` on `exMarket`:
`statProj = 1/2`, implied probability `1/3`, edge `round(1/6, 3) = 0.167`. -/
def exPlay : Record :=
  valuePlayRec (some ("Ace")) ("hits") 200 (167/1000) ("FD")

/-- The opportunity the code emits on `c2Market`: profit fraction
`40/8323`, stored as `round(100 × 40/8323, 2) = 0.48`. -/
def c2Record : Record :=
  arbRec ("Ace") ("hits") ("A") ("B") 105 (-103) (12/25)

/-- The opportunity the code emits on `c8Market`: profit fraction
`5/231`, stored as `round(100 × 5/231, 2) = 2.16`. -/
def c8Record : Record :=
  arbRec ("P") ("hits") ("FanDuel") ("DraftKings") 120 (-110) (54/25)

/-- The opportunity the code emits on `c10Market`: profit fraction
`1/1019999`, stored as `round(100/1019999, 2) = 0`. -/
def c10Record : Record :=
  arbRec ("P") ("hits") ("A") ("B") 10000 (-9999) 0

end Omni

namespace Omni

@[simp] theorem andThen_ok {α β : Type} (a : α) (f : α → Except String β) :
    andThen (Except.ok a) f = f a := rfl

@[simp] theorem andThen_error {α β : Type} (s : String)
    (f : α → Except String β) :
    andThen (Except.error s) f = Except.error s := rfl

@[simp] theorem getKey_some {α : Type} (a : α) (k : String) :
    getKey (some a) k = Except.ok a := rfl

@[simp] theorem getKey_none {α : Type} (k : String) :
    getKey (none : Option α) k = Except.error k := rfl

theorem convertOdds_of_pos {o : ℤ} (h : 0 < o) :
    convertOdds o = 100 / ((o : ℚ) + 100) := by
  unfold convertOdds
  rw [if_pos h]

theorem convertOdds_of_nonpos {o : ℤ} (h : ¬ 0 < o) :
    convertOdds o = |(o : ℚ)| / (|(o : ℚ)| + 100) := by
  unfold convertOdds
  rw [if_neg h]

theorem convertOdds_nonneg (o : ℤ) : 0 ≤ convertOdds o := by
  unfold convertOdds
  split
  · apply div_nonneg (by norm_num)
    have : (1 : ℚ) ≤ (o : ℚ) := by exact_mod_cast ‹o > 0›
    linarith
  · apply div_nonneg (abs_nonneg _)
    have := abs_nonneg ((o : ℚ))
    linarith

theorem convertOdds_lt_one (o : ℤ) : convertOdds o < 1 := by
  unfold convertOdds
  split
  · have h1 : (1 : ℚ) ≤ (o : ℚ) := by exact_mod_cast ‹o > 0›
    rw [div_lt_one (by linarith)]
    linarith
  · have h0 := abs_nonneg ((o : ℚ))
    rw [div_lt_one (by linarith)]
    linarith

theorem roundHalfEven_eq_down (x : ℚ) (f : ℤ) (h1 : (f : ℚ) ≤ x)
    (h2 : x < (f : ℚ) + 1/2) : roundHalfEven x = f := by
  have hf : ⌊x⌋ = f := Int.floor_eq_iff.mpr ⟨h1, by linarith⟩
  unfold roundHalfEven
  rw [hf, if_pos (by linarith)]

theorem roundHalfEven_eq_up (x : ℚ) (f : ℤ) (h1 : (f : ℚ) + 1/2 < x)
    (h2 : x < (f : ℚ) + 1) : roundHalfEven x = f + 1 := by
  have hf : ⌊x⌋ = f := Int.floor_eq_iff.mpr ⟨by linarith, h2⟩
  unfold roundHalfEven
  rw [hf, if_neg (by push_neg; linarith), if_pos (by linarith)]

theorem roundHalfEven_nonneg (x : ℚ) (hx : 0 ≤ x) : 0 ≤ roundHalfEven x := by
  have hf : 0 ≤ ⌊x⌋ := Int.floor_nonneg.mpr hx
  unfold roundHalfEven
  split_ifs <;> omega

theorem roundTo_nonneg (n : ℕ) (x : ℚ) (hx : 0 ≤ x) : 0 ≤ roundTo n x := by
  unfold roundTo
  apply div_nonneg
  · exact_mod_cast roundHalfEven_nonneg _ (mul_nonneg hx (by positivity))
  · positivity

theorem calculateArbitrage_pos_iff (o1 o2 : ℤ) :
    0 < calculateArbitrage o1 o2 ↔ convertOdds o1 + convertOdds o2 < 1 := by
  unfold calculateArbitrage
  split
  · constructor
    · intro _; assumption
    · intro h; linarith
  · simp only [lt_self_iff_false, false_iff]
    assumption

theorem calculateArbitrage_of_lt {o1 o2 : ℤ}
    (h : convertOdds o1 + convertOdds o2 < 1) :
    calculateArbitrage o1 o2 = 1 - (convertOdds o1 + convertOdds o2) := by
  unfold calculateArbitrage
  rw [if_pos h]

theorem collectOdds_wf (qs : List (String × ℤ)) :
    collectOdds (qs.map (fun q => wfBook q.1 q.2)) = Except.ok qs := by
  induction qs with
  | nil => rfl
  | cons q rest ih =>
      have h1 : collectOdds (List.map (fun q => wfBook q.1 q.2) (q :: rest)) =
          andThen (getKey (some q.1) ("bookmaker")) (fun bm =>
            andThen (collectOdds (List.map (fun q => wfBook q.1 q.2) rest))
              (fun r => Except.ok ((bm, q.2) :: r))) := rfl
      rw [h1, getKey_some, andThen_ok, ih, andThen_ok]

theorem emitArb_wf (market : Market) (pl ty : String)
    (hpl : market.player = some pl) (hty : market.type = some ty)
    (b1 b2 : String) (o1 o2 : ℤ) (arb : ℚ) :
    emitArb market b1 b2 o1 o2 arb =
      Except.ok (arbRec pl ty b1 b2 o1 o2 (roundTo 2 (arb * 100))) := by
  simp [emitArb, hpl, hty]

theorem arbInner_wf (market : Market) (pl ty : String)
    (hpl : market.player = some pl) (hty : market.type = some ty)
    (b1 : String) (o1 : ℤ) (rest : List (String × ℤ)) :
    arbInner market b1 o1 rest = Except.ok (rest.filterMap (fun q2 =>
      if ((o1 > 0 ∧ q2.2 < 0) ∨ (o1 < 0 ∧ q2.2 > 0)) ∧
          0 < 1 - (convertOdds o1 + convertOdds q2.2) then
        some (arbRec pl ty b1 q2.1 o1 q2.2
          (roundTo 2 (100 * (1 - (convertOdds o1 + convertOdds q2.2)))))
      else none)) := by
  induction rest with
  | nil => rfl
  | cons q rest ih =>
      simp only [arbInner, List.filterMap_cons]
      by_cases hsign : (o1 > 0 ∧ q.2 < 0) ∨ (o1 < 0 ∧ q.2 > 0)
      · rw [if_pos hsign]
        by_cases hlt : convertOdds o1 + convertOdds q.2 < 1
        · have harb : 0 < calculateArbitrage o1 q.2 :=
            (calculateArbitrage_pos_iff o1 q.2).mpr hlt
          rw [if_pos harb, emitArb_wf market pl ty hpl hty,
            calculateArbitrage_of_lt hlt]
          rw [if_pos ⟨hsign, by linarith⟩]
          simp only [andThen_ok, ih]
          rw [mul_comm (1 - (convertOdds o1 + convertOdds q.2)) 100]
          rfl
        · have harb : ¬ 0 < calculateArbitrage o1 q.2 := by
            rw [calculateArbitrage_pos_iff]; exact hlt
          rw [if_neg harb, if_neg (by
            intro hc
            exact hlt (by linarith [hc.2]))]
          simp only [andThen_ok, ih]
          rfl
      · rw [if_neg hsign, if_neg (by intro hc; exact hsign hc.1)]
        simp only [andThen_ok, ih]
        rfl

theorem arbPairs_wf (market : Market) (pl ty : String)
    (hpl : market.player = some pl) (hty : market.type = some ty)
    (qs : List (String × ℤ)) :
    arbPairs market qs = Except.ok (arbAllPairsSpec pl ty qs) := by
  induction qs with
  | nil => rfl
  | cons q rest ih =>
      simp only [arbPairs, arbAllPairsSpec,
        arbInner_wf market pl ty hpl hty q.1 q.2, andThen_ok, ih]

theorem checkArbitrage_wf (pl ty : String) (qs : List (String × ℤ)) :
    checkArbitrage (wfMarket pl ty qs) = Except.ok (arbAllPairsSpec pl ty qs) := by
  unfold checkArbitrage wfMarket
  rw [show (Market.mk (some pl) (some ty)
      (qs.map (fun q => wfBook q.1 q.2))).markets =
      qs.map (fun q => wfBook q.1 q.2) from rfl]
  rw [collectOdds_wf, andThen_ok]
  exact arbPairs_wf _ pl ty rfl rfl qs

theorem valuePlayForBook_wf (proj : PlayerProjection) (market : Market)
    (ty : String) (hty : market.type = some ty) (bm : String) (o : ℤ) :
    valuePlayForBook proj market (wfBook bm o) =
      Except.ok
        (if ((proj.stats.lookup ty).getD 0) / 100 > convertOdds o + 1/20 then
          [valuePlayRec proj.name ty o
            (roundTo 3 (((proj.stats.lookup ty).getD 0) / 100 - convertOdds o)) bm]
        else []) := by
  have h1 : valuePlayForBook proj market (wfBook bm o) =
      andThen (getKey market.type ("type")) (fun t =>
        if ((proj.stats.lookup t).getD 0) / 100 > convertOdds o + 1/20 then
          andThen (getKey (some bm) ("bookmaker")) (fun b =>
            Except.ok [valuePlayRec proj.name t o
              (roundTo 3 (((proj.stats.lookup t).getD 0) / 100 - convertOdds o)) b])
        else Except.ok []) := rfl
  rw [h1, hty, getKey_some, andThen_ok]
  split_ifs with h
  · rw [getKey_some, andThen_ok]
  · rfl

theorem valuePlaysSpec_nil (proj : PlayerProjection) (ty : String) :
    valuePlaysSpec proj ty [] = [] := rfl

theorem valuePlaysSpec_cons_pos (proj : PlayerProjection) (ty : String)
    (q : String × ℤ) (rest : List (String × ℤ))
    (h : ((proj.stats.lookup ty).getD 0) / 100 > convertOdds q.2 + 1/20) :
    valuePlaysSpec proj ty (q :: rest) =
      valuePlayRec proj.name ty q.2
        (roundTo 3 (((proj.stats.lookup ty).getD 0) / 100 - convertOdds q.2)) q.1
      :: valuePlaysSpec proj ty rest := by
  unfold valuePlaysSpec
  rw [List.filterMap_cons_some]
  dsimp only
  rw [if_pos h]

theorem valuePlaysSpec_cons_neg (proj : PlayerProjection) (ty : String)
    (q : String × ℤ) (rest : List (String × ℤ))
    (h : ¬ ((proj.stats.lookup ty).getD 0) / 100 > convertOdds q.2 + 1/20) :
    valuePlaysSpec proj ty (q :: rest) = valuePlaysSpec proj ty rest := by
  unfold valuePlaysSpec
  rw [List.filterMap_cons_none]
  dsimp only
  rw [if_neg h]

theorem processBooks_wf (proj : PlayerProjection) (market : Market)
    (ty : String) (hty : market.type = some ty) (qs : List (String × ℤ)) :
    processBooks proj market (qs.map (fun q => wfBook q.1 q.2)) =
      Except.ok (valuePlaysSpec proj ty qs) := by
  induction qs with
  | nil => rfl
  | cons q rest ih =>
      rw [List.map_cons]
      have h1 : processBooks proj market
          (wfBook q.1 q.2 :: List.map (fun q => wfBook q.1 q.2) rest) =
          andThen (valuePlayForBook proj market (wfBook q.1 q.2)) (fun here =>
            andThen (processBooks proj market
              (List.map (fun q => wfBook q.1 q.2) rest)) (fun rest2 =>
              Except.ok (here ++ rest2))) := rfl
      rw [h1, valuePlayForBook_wf proj market ty hty q.1 q.2, andThen_ok, ih,
        andThen_ok]
      by_cases h : ((proj.stats.lookup ty).getD 0) / 100 > convertOdds q.2 + 1/20
      · rw [if_pos h, valuePlaysSpec_cons_pos proj ty q rest h,
          List.singleton_append]
      · rw [if_neg h, valuePlaysSpec_cons_neg proj ty q rest h, List.nil_append]

theorem analyzeMarket_shift (st : AnalyzerState) (m : Market)
    (st1 : AnalyzerState) (h : analyzeMarket st m = Except.ok st1) :
    ∃ dv da,
      st1 = ⟨st.projections, st.valuePlays ++ dv, st.arbOpportunities ++ da⟩ ∧
      ∀ v0 a0, analyzeMarket ⟨st.projections, v0, a0⟩ m =
        Except.ok ⟨st.projections, v0 ++ dv, a0 ++ da⟩ := by
  unfold analyzeMarket at h
  cases hfp : findProjection st.projections m.player with
  | none =>
      rw [hfp] at h
      have h' : Except.ok st = Except.ok st1 := h
      cases h'
      refine ⟨[], [], by cases st; simp, fun v0 a0 => ?_⟩
      unfold analyzeMarket
      rw [show findProjection
          (AnalyzerState.mk st.projections v0 a0).projections m.player =
          findProjection st.projections m.player from rfl, hfp]
      simp
  | some proj =>
      rw [hfp] at h
      have h' : andThen (processBooks proj m m.markets) (fun vps =>
          andThen (checkArbitrage m) (fun arbs =>
            Except.ok ⟨st.projections, st.valuePlays ++ vps,
              st.arbOpportunities ++ arbs⟩)) = Except.ok st1 := h
      cases hpb : processBooks proj m m.markets with
      | error e => rw [hpb, andThen_error] at h'; exact absurd h' (by simp)
      | ok vps =>
          rw [hpb, andThen_ok] at h'
          cases hca : checkArbitrage m with
          | error e => rw [hca, andThen_error] at h'; exact absurd h' (by simp)
          | ok arbs =>
              rw [hca, andThen_ok] at h'
              cases h'
              refine ⟨vps, arbs, rfl, fun v0 a0 => ?_⟩
              unfold analyzeMarket
              rw [show findProjection
                  (AnalyzerState.mk st.projections v0 a0).projections m.player =
                  findProjection st.projections m.player from rfl, hfp]
              show andThen (processBooks proj m m.markets) _ = _
              rw [hpb, andThen_ok, hca, andThen_ok]

theorem analyzeOdds_frame (ms : List Market) (st st1 : AnalyzerState)
    (h : analyzeOdds st ms = Except.ok st1) :
    ∃ dv da,
      st1 = ⟨st.projections, st.valuePlays ++ dv, st.arbOpportunities ++ da⟩ ∧
      ∀ v0 a0, analyzeOdds ⟨st.projections, v0, a0⟩ ms =
        Except.ok ⟨st.projections, v0 ++ dv, a0 ++ da⟩ := by
  induction ms generalizing st with
  | nil =>
      have h' : Except.ok st = Except.ok st1 := h
      cases h'
      exact ⟨[], [], by simp, fun v0 a0 => by simp [analyzeOdds]⟩
  | cons m ms ih =>
      have h' : andThen (analyzeMarket st m)
          (fun st2 => analyzeOdds st2 ms) = Except.ok st1 := h
      cases hm : analyzeMarket st m with
      | error e => rw [hm, andThen_error] at h'; exact absurd h' (by simp)
      | ok st2 =>
          rw [hm, andThen_ok] at h'
          obtain ⟨dv2, da2, hst2, hshift⟩ := analyzeMarket_shift st m st2 hm
          obtain ⟨dv, da, hst1, hrun⟩ := ih st2 h'
          have hproj : st2.projections = st.projections := by rw [hst2]
          have hvp : st2.valuePlays = st.valuePlays ++ dv2 := by rw [hst2]
          have hao : st2.arbOpportunities = st.arbOpportunities ++ da2 := by
            rw [hst2]
          refine ⟨dv2 ++ dv, da2 ++ da, ?_, fun v0 a0 => ?_⟩





          · rw [hst1, hproj, hvp, hao, List.append_assoc, List.append_assoc]
          · show andThen (analyzeMarket ⟨st.projections, v0, a0⟩ m)
              (fun st2 => analyzeOdds st2 ms) = _
            rw [hshift v0 a0, andThen_ok]
            have hr := hrun (v0 ++ dv2) (a0 ++ da2)
            rw [hproj] at hr
            rw [hr, List.append_assoc, List.append_assoc]

theorem valuePlayForBook_shape (proj : PlayerProjection) (market : Market)
    (b : Book) (l : List Record)
    (h : valuePlayForBook proj market b = Except.ok l) :
    l = [] ∨ ∃ ty o e bm, l = [valuePlayRec proj.name ty o e bm] := by
  unfold valuePlayForBook at h
  cases hbo : b.odds with
  | none => rw [hbo, getKey_none, andThen_error] at h; exact absurd h (by simp)
  | some o =>
      rw [hbo, getKey_some, andThen_ok] at h
      cases hmt : market.type with
      | none =>
          rw [hmt, getKey_none, andThen_error] at h; exact absurd h (by simp)
      | some ty =>
          rw [hmt, getKey_some, andThen_ok] at h
          by_cases hc :
            ((proj.stats.lookup ty).getD 0) / 100 > convertOdds o + 1/20
          · rw [if_pos hc] at h
            cases hbm : b.bookmaker with
            | none =>
                rw [hbm, getKey_none, andThen_error] at h
                exact absurd h (by simp)
            | some bm =>
                rw [hbm, getKey_some, andThen_ok] at h
                cases h
                exact Or.inr ⟨ty, o, _, bm, rfl⟩
          · rw [if_neg hc] at h
            cases h
            exact Or.inl rfl

theorem processBooks_shape (proj : PlayerProjection) (market : Market)
    (bs : List Book) (l : List Record)
    (h : processBooks proj market bs = Except.ok l) (r : Record) (hr : r ∈ l) :
    ∃ pl ty o e bm, r = valuePlayRec pl ty o e bm := by
  induction bs generalizing l with
  | nil =>
      have h' : Except.ok [] = Except.ok l := h
      cases h'
      simp at hr
  | cons b bs ih =>
      have h' : andThen (valuePlayForBook proj market b) (fun here =>
          andThen (processBooks proj market bs) (fun rest =>
            Except.ok (here ++ rest))) = Except.ok l := h
      cases hv : valuePlayForBook proj market b with
      | error e => rw [hv, andThen_error] at h'; exact absurd h' (by simp)
      | ok here =>
          rw [hv, andThen_ok] at h'
          cases hp : processBooks proj market bs with
          | error e => rw [hp, andThen_error] at h'; exact absurd h' (by simp)
          | ok rest =>
              rw [hp, andThen_ok] at h'
              cases h'
              rcases List.mem_append.mp hr with hin | hin
              · rcases valuePlayForBook_shape proj market b here hv with
                  hnil | ⟨ty, o, e, bm, heq⟩
                · rw [hnil] at hin; simp at hin
                · rw [heq] at hin
                  simp only [List.mem_singleton] at hin
                  exact ⟨proj.name, ty, o, e, bm, hin⟩
              · exact ih rest hp hin

theorem analyzeMarket_keys (st : AnalyzerState) (m : Market)
    (st1 : AnalyzerState) (h : analyzeMarket st m = Except.ok st1)
    (r : Record) (hr : r ∈ st1.valuePlays) :
    r ∈ st.valuePlays ∨ ∃ pl ty o e bm, r = valuePlayRec pl ty o e bm := by
  unfold analyzeMarket at h
  cases hfp : findProjection st.projections m.player with
  | none =>
      rw [hfp] at h
      have h' : Except.ok st = Except.ok st1 := h
      cases h'
      exact Or.inl hr
  | some proj =>
      rw [hfp] at h
      have h' : andThen (processBooks proj m m.markets) (fun vps =>
          andThen (checkArbitrage m) (fun arbs =>
            Except.ok ⟨st.projections, st.valuePlays ++ vps,
              st.arbOpportunities ++ arbs⟩)) = Except.ok st1 := h
      cases hpb : processBooks proj m m.markets with
      | error e => rw [hpb, andThen_error] at h'; exact absurd h' (by simp)
      | ok vps =>
          rw [hpb, andThen_ok] at h'
          cases hca : checkArbitrage m with
          | error e => rw [hca, andThen_error] at h'; exact absurd h' (by simp)
          | ok arbs =>
              rw [hca, andThen_ok] at h'
              cases h'
              rcases List.mem_append.mp hr with hin | hin
              · exact Or.inl hin
              · exact Or.inr (processBooks_shape proj m m.markets vps hpb r hin)

theorem analyzeOdds_keys (ms : List Market) (st st1 : AnalyzerState)
    (h : analyzeOdds st ms = Except.ok st1) (r : Record)
    (hr : r ∈ st1.valuePlays) :
    r ∈ st.valuePlays ∨ ∃ pl ty o e bm, r = valuePlayRec pl ty o e bm := by
  induction ms generalizing st with
  | nil =>
      have h' : Except.ok st = Except.ok st1 := h
      cases h'
      exact Or.inl hr
  | cons m ms ih =>
      have h' : andThen (analyzeMarket st m)
          (fun st2 => analyzeOdds st2 ms) = Except.ok st1 := h
      cases hm : analyzeMarket st m with
      | error e => rw [hm, andThen_error] at h'; exact absurd h' (by simp)
      | ok st2 =>
          rw [hm, andThen_ok] at h'
          rcases ih st2 h' with hin | hshape
          · exact analyzeMarket_keys st m st2 hm r hin
          · exact Or.inr hshape

theorem emitArb_shape (market : Market) (b1 b2 : String) (o1 o2 : ℤ)
    (arb : ℚ) (r : Record) (h : emitArb market b1 b2 o1 o2 arb = Except.ok r) :
    ∃ pl ty, r = arbRec pl ty b1 b2 o1 o2 (roundTo 2 (arb * 100)) := by
  unfold emitArb at h
  cases hpl : market.player with
  | none => rw [hpl, getKey_none, andThen_error] at h; exact absurd h (by simp)
  | some pl =>
      rw [hpl, getKey_some, andThen_ok] at h
      cases hty : market.type with
      | none =>
          rw [hty, getKey_none, andThen_error] at h; exact absurd h (by simp)
      | some ty =>
          rw [hty, getKey_some, andThen_ok] at h
          cases h
          exact ⟨pl, ty, rfl⟩

theorem arbInner_shape (market : Market) (b1 : String) (o1 : ℤ)
    (rest : List (String × ℤ)) (l : List Record)
    (h : arbInner market b1 o1 rest = Except.ok l) (r : Record) (hr : r ∈ l) :
    ∃ pl ty b2 o2, 0 < calculateArbitrage o1 o2 ∧
      r = arbRec pl ty b1 b2 o1 o2 (roundTo 2 (calculateArbitrage o1 o2 * 100)) := by
  induction rest generalizing l with
  | nil =>
      have h' : Except.ok [] = Except.ok l := h
      cases h'
      simp at hr
  | cons q rest ih =>
      have h' : andThen
          (if (o1 > 0 ∧ q.2 < 0) ∨ (o1 < 0 ∧ q.2 > 0) then
            if calculateArbitrage o1 q.2 > 0 then
              andThen (emitArb market b1 q.1 o1 q.2 (calculateArbitrage o1 q.2))
                (fun r2 => Except.ok [r2])
            else Except.ok []
          else Except.ok [])
          (fun here => andThen (arbInner market b1 o1 rest) (fun more =>
            Except.ok (here ++ more))) = Except.ok l := h
      by_cases hsign : (o1 > 0 ∧ q.2 < 0) ∨ (o1 < 0 ∧ q.2 > 0)
      · rw [if_pos hsign] at h'
        by_cases harb : calculateArbitrage o1 q.2 > 0
        · rw [if_pos harb] at h'
          cases he : emitArb market b1 q.1 o1 q.2 (calculateArbitrage o1 q.2) with
          | error e => rw [he, andThen_error, andThen_error] at h'
                       exact absurd h' (by simp)
          | ok r2 =>
              rw [he, andThen_ok, andThen_ok] at h'
              cases hin : arbInner market b1 o1 rest with
              | error e =>
                  rw [hin, andThen_error] at h'; exact absurd h' (by simp)
              | ok more =>
                  rw [hin, andThen_ok] at h'
                  cases h'
                  rcases List.mem_append.mp hr with hhead | htail
                  · simp only [List.mem_singleton] at hhead
                    obtain ⟨pl, ty, heq⟩ :=
                      emitArb_shape market b1 q.1 o1 q.2 _ r2 he
                    exact ⟨pl, ty, q.1, q.2, harb, by rw [hhead, heq]⟩
                  · exact ih more hin htail
        · rw [if_neg harb] at h'
          rw [andThen_ok] at h'
          cases hin : arbInner market b1 o1 rest with
          | error e => rw [hin, andThen_error] at h'; exact absurd h' (by simp)
          | ok more =>
              rw [hin, andThen_ok] at h'
              cases h'
              rcases List.mem_append.mp hr with hhead | htail
              · simp at hhead
              · exact ih more hin htail
      · rw [if_neg hsign, andThen_ok] at h'
        cases hin : arbInner market b1 o1 rest with
        | error e => rw [hin, andThen_error] at h'; exact absurd h' (by simp)
        | ok more =>
            rw [hin, andThen_ok] at h'
            cases h'
            rcases List.mem_append.mp hr with hhead | htail
            · simp at hhead
            · exact ih more hin htail

theorem arbPairs_shape (market : Market) (qs : List (String × ℤ))
    (l : List Record) (h : arbPairs market qs = Except.ok l) (r : Record)
    (hr : r ∈ l) :
    ∃ pl ty b1 b2 o1 o2, 0 < calculateArbitrage o1 o2 ∧
      r = arbRec pl ty b1 b2 o1 o2 (roundTo 2 (calculateArbitrage o1 o2 * 100)) := by
  induction qs generalizing l with
  | nil =>
      have h' : Except.ok [] = Except.ok l := h
      cases h'
      simp at hr
  | cons q qs ih =>
      have h' : andThen (arbInner market q.1 q.2 qs) (fun here =>
          andThen (arbPairs market qs) (fun more =>
            Except.ok (here ++ more))) = Except.ok l := h
      cases hin : arbInner market q.1 q.2 qs with
      | error e => rw [hin, andThen_error] at h'; exact absurd h' (by simp)
      | ok here =>
          rw [hin, andThen_ok] at h'
          cases hp : arbPairs market qs with
          | error e => rw [hp, andThen_error] at h'; exact absurd h' (by simp)
          | ok more =>
              rw [hp, andThen_ok] at h'
              cases h'
              rcases List.mem_append.mp hr with hhead | htail
              · obtain ⟨pl, ty, b2, o2, harb, heq⟩ :=
                  arbInner_shape market q.1 q.2 qs here hin r hhead
                exact ⟨pl, ty, q.1, b2, q.2, o2, harb, heq⟩
              · exact ih more hp htail

theorem checkArbitrage_shape (market : Market) (l : List Record)
    (h : checkArbitrage market = Except.ok l) (r : Record) (hr : r ∈ l) :
    ∃ pl ty b1 b2 o1 o2, 0 < calculateArbitrage o1 o2 ∧
      r = arbRec pl ty b1 b2 o1 o2 (roundTo 2 (calculateArbitrage o1 o2 * 100)) := by
  unfold checkArbitrage at h
  cases hc : collectOdds market.markets with
  | error e => rw [hc, andThen_error] at h; exact absurd h (by simp)
  | ok qs =>
      rw [hc, andThen_ok] at h
      exact arbPairs_shape market qs l h r hr

theorem roundTo_eq_down (n : ℕ) (x : ℚ) (f : ℤ) (h1 : (f : ℚ) ≤ x * 10 ^ n)
    (h2 : x * 10 ^ n < (f : ℚ) + 1/2) : roundTo n x = (f : ℚ) / 10 ^ n := by
  unfold roundTo
  rw [roundHalfEven_eq_down (x * 10 ^ n) f h1 h2]

theorem roundTo_eq_up (n : ℕ) (x : ℚ) (f : ℤ) (h1 : (f : ℚ) + 1/2 < x * 10 ^ n)
    (h2 : x * 10 ^ n < (f : ℚ) + 1) : roundTo n x = ((f : ℚ) + 1) / 10 ^ n := by
  unfold roundTo
  rw [roundHalfEven_eq_up (x * 10 ^ n) f h1 h2]
  push_cast
  ring_nf

theorem cv105 : convertOdds 105 = 20/41 := by norm_num [convertOdds]
theorem cvm103 : convertOdds (-103) = 103/203 := by norm_num [convertOdds]
theorem cv120 : convertOdds 120 = 5/11 := by norm_num [convertOdds]
theorem cvm110 : convertOdds (-110) = 11/21 := by norm_num [convertOdds]
theorem cv200 : convertOdds 200 = 1/3 := by norm_num [convertOdds]
theorem cv10000 : convertOdds 10000 = 1/101 := by norm_num [convertOdds]
theorem cvm9999 : convertOdds (-9999) = 9999/10099 := by norm_num [convertOdds]

theorem arbAllPairsSpec_single (pl ty : String) (q : String × ℤ) :
    arbAllPairsSpec pl ty [q] = [] := rfl

theorem arbAllPairsSpec_pair_pos (pl ty : String) (q1 q2 : String × ℤ)
    (hsign : (q1.2 > 0 ∧ q2.2 < 0) ∨ (q1.2 < 0 ∧ q2.2 > 0))
    (hlt : 0 < 1 - (convertOdds q1.2 + convertOdds q2.2)) :
    arbAllPairsSpec pl ty [q1, q2] =
      [arbRec pl ty q1.1 q2.1 q1.2 q2.2
        (roundTo 2 (100 * (1 - (convertOdds q1.2 + convertOdds q2.2))))] := by
  have h1 : arbAllPairsSpec pl ty [q1, q2] =
      ([q2].filterMap (fun q =>
        if ((q1.2 > 0 ∧ q.2 < 0) ∨ (q1.2 < 0 ∧ q.2 > 0)) ∧
            0 < 1 - (convertOdds q1.2 + convertOdds q.2) then
          some (arbRec pl ty q1.1 q.1 q1.2 q.2
            (roundTo 2 (100 * (1 - (convertOdds q1.2 + convertOdds q.2)))))
        else none)) ++ arbAllPairsSpec pl ty [q2] := rfl
  rw [h1, arbAllPairsSpec_single, List.append_nil]
  rw [List.filterMap_cons_some]
  · rfl
  · dsimp only
    rw [if_pos ⟨hsign, hlt⟩]

theorem c8_eval : checkArbitrage c8Market = Except.ok [c8Record] := by
  rw [show c8Market = wfMarket ("P") ("hits")
    [(("FanDuel"), 120), (("DraftKings"), -110)] from rfl]
  rw [checkArbitrage_wf]
  rw [arbAllPairsSpec_pair_pos ("P") ("hits") (("FanDuel"), 120)
    (("DraftKings"), -110) (Or.inl ⟨by norm_num, by norm_num⟩)
    (by show 0 < 1 - (convertOdds 120 + convertOdds (-110))
        rw [cv120, cvm110]; norm_num)]
  show Except.ok [arbRec ("P") ("hits") ("FanDuel") ("DraftKings") 120 (-110)
    (roundTo 2 (100 * (1 - (convertOdds 120 + convertOdds (-110)))))] = _
  rw [cv120, cvm110,
    show (100 * (1 - ((5:ℚ)/11 + 11/21))) = 500/231 by norm_num,
    roundTo_eq_down 2 (500/231 : ℚ) 216 (by norm_num) (by norm_num),
    show (((216:ℤ) : ℚ)) / 10 ^ 2 = (54/25 : ℚ) by norm_num]
  rfl

theorem c2_eval : checkArbitrage c2Market = Except.ok [c2Record] := by
  rw [show c2Market = wfMarket ("Ace") ("hits")
    [(("A"), 105), (("B"), -103)] from rfl]
  rw [checkArbitrage_wf]
  rw [arbAllPairsSpec_pair_pos ("Ace") ("hits") (("A"), 105)
    (("B"), -103) (Or.inl ⟨by norm_num, by norm_num⟩)
    (by show 0 < 1 - (convertOdds 105 + convertOdds (-103))
        rw [cv105, cvm103]; norm_num)]
  show Except.ok [arbRec ("Ace") ("hits") ("A") ("B") 105 (-103)
    (roundTo 2 (100 * (1 - (convertOdds 105 + convertOdds (-103)))))] = _
  rw [cv105, cvm103,
    show (100 * (1 - ((20:ℚ)/41 + 103/203))) = 4000/8323 by norm_num,
    roundTo_eq_down 2 (4000/8323 : ℚ) 48 (by norm_num) (by norm_num),
    show (((48:ℤ) : ℚ)) / 10 ^ 2 = (12/25 : ℚ) by norm_num]
  rfl

theorem c10_eval : checkArbitrage c10Market = Except.ok [c10Record] := by
  rw [show c10Market = wfMarket ("P") ("hits")
    [(("A"), 10000), (("B"), -9999)] from rfl]
  rw [checkArbitrage_wf]
  rw [arbAllPairsSpec_pair_pos ("P") ("hits") (("A"), 10000)
    (("B"), -9999) (Or.inl ⟨by norm_num, by norm_num⟩)
    (by show 0 < 1 - (convertOdds 10000 + convertOdds (-9999))
        rw [cv10000, cvm9999]; norm_num)]
  show Except.ok [arbRec ("P") ("hits") ("A") ("B") 10000 (-9999)
    (roundTo 2 (100 * (1 - (convertOdds 10000 + convertOdds (-9999)))))] = _
  rw [cv10000, cvm9999,
    show (100 * (1 - ((1:ℚ)/101 + 9999/10099))) = 100/1019999 by norm_num,
    roundTo_eq_down 2 (100/1019999 : ℚ) 0 (by norm_num) (by norm_num),
    show (((0:ℤ) : ℚ)) / 10 ^ 2 = (0 : ℚ) by norm_num]
  rfl

theorem exSpec_eval : valuePlaysSpec exProj ("hits") [(("FD"), 200)] = [exPlay] := by
  have hst : ((exProj.stats.lookup ("hits")).getD 0 : ℚ) = 50 := rfl
  have hcond : ((exProj.stats.lookup ("hits")).getD 0) / 100 >
      convertOdds (((("FD"), (200:ℤ))) : String × ℤ).2 + 1/20 := by
    rw [hst]
    show (50:ℚ)/100 > convertOdds 200 + 1/20
    rw [cv200]; norm_num
  rw [valuePlaysSpec_cons_pos exProj ("hits") _ _ hcond, valuePlaysSpec_nil]
  have hedge : roundTo 3 (((exProj.stats.lookup ("hits")).getD 0) / 100 -
      convertOdds (((("FD"), (200:ℤ))) : String × ℤ).2) = 167/1000 := by
    rw [hst]
    show roundTo 3 ((50:ℚ)/100 - convertOdds 200) = 167/1000
    rw [cv200,
      show ((50:ℚ)/100 - 1/3) = 1/6 by norm_num,
      roundTo_eq_up 3 (1/6 : ℚ) 166 (by norm_num) (by norm_num)]
    norm_num
  rw [hedge]
  rfl

theorem checkArbitrage_exMarket : checkArbitrage exMarket = Except.ok [] := by
  rw [show exMarket = wfMarket ("Ace") ("hits") [(("FD"), 200)] from rfl,
    checkArbitrage_wf, arbAllPairsSpec_single]

theorem exRun_from (v0 a0 : List Record) :
    analyzeOdds ⟨[exProj], v0, a0⟩ [exMarket] =
      Except.ok ⟨[exProj], v0 ++ [exPlay], a0⟩ := by
  have h1 : analyzeOdds (⟨[exProj], v0, a0⟩ : AnalyzerState) [exMarket] =
      andThen (analyzeMarket ⟨[exProj], v0, a0⟩ exMarket)
        (fun st2 => Except.ok st2) := rfl
  have h2 : analyzeMarket (⟨[exProj], v0, a0⟩ : AnalyzerState) exMarket =
      andThen (processBooks exProj exMarket exMarket.markets) (fun vps =>
        andThen (checkArbitrage exMarket) (fun arbs =>
          Except.ok ⟨[exProj], v0 ++ vps, a0 ++ arbs⟩)) := rfl
  rw [h1, h2]
  rw [show exMarket.markets =
    (([(("FD"), (200:ℤ))]) : List (String × ℤ)).map (fun q => wfBook q.1 q.2)
    from rfl]
  rw [processBooks_wf exProj exMarket ("hits") rfl, exSpec_eval, andThen_ok,
    checkArbitrage_exMarket, andThen_ok, andThen_ok, List.append_nil]

theorem exRun_once :
    analyzeOdds exSt0 [exMarket] = Except.ok ⟨[exProj], [exPlay], []⟩ := by
  have h := exRun_from [] []
  simpa [exSt0] using h

/-- C1: for every integer odds > 0 the conversion returns exactly
`100/(odds+100)`, for every odds < 0 exactly `|odds|/(|odds|+100)`; in both
cases the result is strictly between 0 and 1, and
`convert(100) = convert(-100) = 0.5`. -/
theorem claim_C1 (odds : ℤ) :
    (0 < odds → convertOdds odds = 100 / ((odds : ℚ) + 100)) ∧
    (odds < 0 → convertOdds odds = |(odds : ℚ)| / (|(odds : ℚ)| + 100)) ∧
    (odds ≠ 0 → 0 < convertOdds odds ∧ convertOdds odds < 1) ∧
    convertOdds 100 = 1/2 ∧ convertOdds (-100) = 1/2 := by
  have hpos : odds ≠ 0 → 0 < convertOdds odds := by
    intro hne
    unfold convertOdds
    split
    · apply div_pos (by norm_num)
      have h1 : (1 : ℚ) ≤ (odds : ℚ) := by exact_mod_cast ‹odds > 0›
      linarith
    · have h2 : (1 : ℚ) ≤ |(odds : ℚ)| := by
        exact_mod_cast Int.one_le_abs hne
      exact div_pos (by linarith) (by linarith)
  exact ⟨fun h => convertOdds_of_pos h,
    fun h => convertOdds_of_nonpos (by omega),
    fun h => ⟨hpos h, convertOdds_lt_one odds⟩,
    by norm_num [convertOdds], by norm_num [convertOdds]⟩

/-- Witness for C1: both sign branches at concrete inputs +120 and -110. -/
theorem claim_C1_witness :
    convertOdds 120 = 100 / ((120 : ℚ) + 100) ∧
    convertOdds (-110) =
      |(((-110 : ℤ)) : ℚ)| / (|(((-110 : ℤ)) : ℚ)| + 100) ∧
    0 < convertOdds 120 ∧ convertOdds 120 < 1 ∧
    0 < convertOdds (-110) ∧ convertOdds (-110) < 1 := by
  obtain ⟨h1, -, h3, -, -⟩ := claim_C1 120
  obtain ⟨-, h2', h3', -, -⟩ := claim_C1 (-110)
  obtain ⟨h4, h5⟩ := h3 (by norm_num)
  obtain ⟨h6, h7⟩ := h3' (by norm_num)
  exact ⟨h1 (by norm_num), h2' (by norm_num), h4, h5, h6, h7⟩

/-- C2 counterexample: on `c2Market` the two quotes have combined implied
probability `8283/8323 ≈ 0.995`, which is NOT strictly below the claimed
0.98 threshold, yet the code does emit the opportunity (it only requires
the combined probability to be below 1). -/
theorem claim_C2_counterexample :
    checkArbitrage c2Market = Except.ok [c2Record] ∧
    ¬ (convertOdds 105 + convertOdds (-103) < 98/100) := by
  refine ⟨c2_eval, ?_⟩
  rw [cv105, cvm103]
  norm_num

/-- C2 amended: for every market, an opportunity is emitted for an
unordered pair of quotes exactly when one quote has odds > 0, the other
odds < 0, and the combined implied probability is strictly below 1
(equivalently profit `1 − (p1 + p2) > 0`); one opportunity per qualifying
pair, not just the best pair.  Stated as a refinement: the code equals the
spec-side all-pairs scan `arbAllPairsSpec`. -/
theorem claim_C2_amended (pl ty : String) (qs : List (String × ℤ)) :
    checkArbitrage (wfMarket pl ty qs) =
      Except.ok (arbAllPairsSpec pl ty qs) :=
  checkArbitrage_wf pl ty qs

/-- C3: a ValuePlay is emitted for a quote iff
`statProjection > impliedProbability + 0.05` (strict, so an edge of
exactly 0.05 does not qualify), and the stored edge is the difference
rounded to 3 decimals — the code equals the spec-side scan
`valuePlaysSpec`, and the exact-boundary case yields no play. -/
theorem claim_C3 :
    (∀ (proj : PlayerProjection) (pl ty : String) (qs : List (String × ℤ)),
      processBooks proj (wfMarket pl ty qs) (wfMarket pl ty qs).markets =
        Except.ok (valuePlaysSpec proj ty qs)) ∧
    (∀ (proj : PlayerProjection) (pl ty bm : String) (o : ℤ),
      ((proj.stats.lookup ty).getD 0) / 100 = convertOdds o + 1/20 →
      processBooks proj (wfMarket pl ty [(bm, o)])
        (wfMarket pl ty [(bm, o)]).markets = Except.ok []) := by
  constructor
  · intro proj pl ty qs
    rw [show (wfMarket pl ty qs).markets =
      qs.map (fun q => wfBook q.1 q.2) from rfl]
    exact processBooks_wf proj (wfMarket pl ty qs) ty rfl qs
  · intro proj pl ty bm o heq
    rw [show (wfMarket pl ty [(bm, o)]).markets =
      ([(bm, o)] : List (String × ℤ)).map (fun q => wfBook q.1 q.2) from rfl]
    rw [processBooks_wf proj (wfMarket pl ty [(bm, o)]) ty rfl]
    rw [valuePlaysSpec_cons_neg proj ty (bm, o) [] (by
      intro hgt
      rw [show (((bm, o) : String × ℤ)).2 = o from rfl] at hgt
      rw [heq] at hgt
      exact lt_irrefl _ hgt)]
    rfl

/-- Witness for C3: a projection with stat 5 on "hits" against zero odds
sits exactly on the 0.05 boundary and produces no play. -/
theorem claim_C3_witness :
    ((((⟨some ("Ace"), none, none, [(("hits"), 5)]⟩ :
        PlayerProjection).stats.lookup ("hits")).getD 0) / 100 =
      convertOdds 0 + 1/20) ∧
    processBooks (⟨some ("Ace"), none, none, [(("hits"), 5)]⟩ :
        PlayerProjection)
      (wfMarket ("Ace") ("hits") [(("B"), 0)])
      (wfMarket ("Ace") ("hits") [(("B"), 0)]).markets = Except.ok [] := by
  have hb : ((((⟨some ("Ace"), none, none, [(("hits"), 5)]⟩ :
      PlayerProjection).stats.lookup ("hits")).getD 0) / 100 =
      convertOdds 0 + 1/20) := by
    show (5 : ℚ) / 100 = convertOdds 0 + 1/20
    norm_num [convertOdds]
  exact ⟨hb, (claim_C3).2 _ ("Ace") ("hits") ("B") 0 hb⟩

/-- C4 counterexample: running `analyze_odds` twice on identical inputs
doubles the stored value plays (1 play after one run, 2 after two runs)
instead of leaving the results unchanged — the lists accumulate. -/
theorem claim_C4_counterexample :
    vpCount (analyzeOdds exSt0 [exMarket]) = some 1 ∧
    vpCount (runTwice exSt0 [exMarket]) = some 2 := by
  constructor
  · rw [exRun_once]; rfl
  · unfold runTwice
    rw [exRun_once, andThen_ok, exRun_from [exPlay] []]
    rfl

/-- C4 amended: `analyze_odds` appends to the existing result lists
rather than replacing them; a second identical call therefore returns
each list doubled. -/
theorem claim_C4_amended (ps : List PlayerProjection) (ms : List Market)
    (st1 : AnalyzerState) (h : analyzeOdds ⟨ps, [], []⟩ ms = Except.ok st1) :
    analyzeOdds st1 ms =
      Except.ok ⟨ps, st1.valuePlays ++ st1.valuePlays,
        st1.arbOpportunities ++ st1.arbOpportunities⟩ := by
  obtain ⟨dv, da, hst1, hrun⟩ := analyzeOdds_frame ms ⟨ps, [], []⟩ st1 h
  dsimp only at hst1 hrun
  simp only [List.nil_append] at hst1 hrun
  subst hst1
  dsimp only
  exact hrun dv da

/-- Witness for C4: the concrete doubling run. -/
theorem claim_C4_witness :
    analyzeOdds (⟨[exProj], [], []⟩ : AnalyzerState) [exMarket] =
      Except.ok ⟨[exProj], [exPlay], []⟩ ∧
    analyzeOdds (⟨[exProj], [exPlay], []⟩ : AnalyzerState) [exMarket] =
      Except.ok ⟨[exProj], [exPlay] ++ [exPlay], [] ++ []⟩ := by
  have h1 : analyzeOdds (⟨[exProj], [], []⟩ : AnalyzerState) [exMarket] =
      Except.ok ⟨[exProj], [exPlay], []⟩ := exRun_once
  exact ⟨h1, claim_C4_amended [exProj] [exMarket] _ h1⟩

/-- C5: a market whose player matches no projection is skipped silently
(it contributes nothing, and evaluation continues with the remaining
markets); a prop type absent from the matched projection's stats mapping
is read as 0 and can never produce a value play, without raising. -/
theorem claim_C5 :
    (∀ (st : AnalyzerState) (m : Market) (ms : List Market),
      (∀ p ∈ st.projections, p.name ≠ m.player) →
      analyzeOdds st (m :: ms) = analyzeOdds st ms) ∧
    (∀ (proj : PlayerProjection) (pl ty : String) (qs : List (String × ℤ)),
      proj.stats.lookup ty = none →
      processBooks proj (wfMarket pl ty qs) (wfMarket pl ty qs).markets =
        Except.ok []) := by
  constructor
  · intro st m ms hnone
    have hfp : findProjection st.projections m.player = none := by
      unfold findProjection
      rw [List.find?_eq_none]
      intro p hp
      simp only [beq_iff_eq]
      exact hnone p hp
    have h1 : analyzeOdds st (m :: ms) =
        andThen (analyzeMarket st m) (fun st2 => analyzeOdds st2 ms) := rfl
    rw [h1]
    unfold analyzeMarket
    rw [hfp]
    show andThen (Except.ok st) (fun st2 => analyzeOdds st2 ms) = _
    rw [andThen_ok]
  · intro proj pl ty qs hlk
    have hzero : ((proj.stats.lookup ty).getD 0 : ℚ) = 0 := by rw [hlk]; rfl
    have hneg : ∀ o : ℤ,
        ¬ ((proj.stats.lookup ty).getD 0) / 100 > convertOdds o + 1/20 := by
      intro o hgt
      rw [hzero] at hgt
      have h0 := convertOdds_nonneg o
      norm_num at hgt
      linarith
    rw [show (wfMarket pl ty qs).markets =
      qs.map (fun q => wfBook q.1 q.2) from rfl]
    rw [processBooks_wf proj (wfMarket pl ty qs) ty rfl]
    congr 1
    induction qs with
    | nil => rfl
    | cons q rest ih =>
        rw [valuePlaysSpec_cons_neg proj ty q rest (hneg q.2), ih]

/-- Witness for C5: an unmatched market is a no-op, and a prop key absent
from the stats mapping yields no play. -/
theorem claim_C5_witness :
    (∀ p ∈ exSt0.projections, p.name ≠ (some ("Nobody") : Option String)) ∧
    analyzeOdds exSt0
      [(⟨some ("Nobody"), some ("hits"), []⟩ : Market)] =
      analyzeOdds exSt0 [] ∧
    exProj.stats.lookup ("steals") = none ∧
    processBooks exProj (wfMarket ("Ace") ("steals") [(("FD"), 200)])
      (wfMarket ("Ace") ("steals") [(("FD"), 200)]).markets =
      Except.ok [] := by
  have hn : ∀ p ∈ exSt0.projections,
      p.name ≠ (some ("Nobody") : Option String) := by
    intro p hp
    have hp' : p = exProj := by simpa [exSt0] using hp
    subst hp'
    decide
  refine ⟨hn, ?_, rfl, (claim_C5).2 exProj ("Ace") ("steals") _ rfl⟩
  exact (claim_C5).1 exSt0 (⟨some ("Nobody"), some ("hits"), []⟩ : Market) [] hn

/-- C6: the claim (malformed individual records are skipped; the batch
still completes for the well-formed remainder) is the documented intent —
`_check_arbitrage` even guards with `if 'odds' in b` — but the value-play
loop reads `book['odds']` unguarded, so a single book entry without an
`odds` key raises a `KeyError` that aborts the whole batch: the good
market that alone yields one play yields nothing when a malformed market
precedes it. -/
theorem claim_C6_failing :
    vpCount (analyzeOdds exSt0 [exMarket]) = some 1 ∧
    analyzeOdds exSt0 [c6BadMarket, exMarket] = Except.error ("odds") := by
  constructor
  · rw [exRun_once]; rfl
  · rfl

/-- C7 counterexample: the emitted value-play record carries exactly the
keys player/prop/odds/edge/book — there is no `projection` and no
`timestamp` field. -/
theorem claim_C7_counterexample :
    vpKeyLists (analyzeOdds exSt0 [exMarket]) =
      some [[("player"), ("prop"), ("odds"), ("edge"), ("book")]] ∧
    exPlay.lookup ("projection") = none ∧
    exPlay.lookup ("timestamp") = none := by
  refine ⟨?_, rfl, rfl⟩
  rw [exRun_once]
  rfl

/-- C7 amended: every emitted ValuePlay record contains exactly the
fields player, prop, odds, edge and book (in this order); it has no
projection and no timestamp field. -/
theorem claim_C7_amended (ps : List PlayerProjection) (ms : List Market)
    (st1 : AnalyzerState) (h : analyzeOdds ⟨ps, [], []⟩ ms = Except.ok st1)
    (r : Record) (hr : r ∈ st1.valuePlays) :
    r.map Prod.fst = [("player"), ("prop"), ("odds"), ("edge"), ("book")] ∧
    r.lookup ("projection") = none ∧ r.lookup ("timestamp") = none := by
  rcases analyzeOdds_keys ms ⟨ps, [], []⟩ st1 h r hr with
    hin | ⟨pl, ty, o, e, bm, heq⟩
  · simp at hin
  · rw [heq]
    exact ⟨rfl, rfl, rfl⟩

/-- Witness for C7: the concrete emitted play. -/
theorem claim_C7_witness :
    exPlay.map Prod.fst =
      [("player"), ("prop"), ("odds"), ("edge"), ("book")] ∧
    exPlay.lookup ("projection") = none ∧
    exPlay.lookup ("timestamp") = none := by
  have h1 : analyzeOdds (⟨[exProj], [], []⟩ : AnalyzerState) [exMarket] =
      Except.ok ⟨[exProj], [exPlay], []⟩ := exRun_once
  exact claim_C7_amended [exProj] [exMarket] _ h1 exPlay (by simp)

/-- C8 counterexample: on the FanDuel +120 / DraftKings -110 market the
code's combined implied probability exceeds 0.97 (so it is not ≈ 0.9307)
and the profit fraction is below 0.03 (so it is not ≈ 0.0693): the claim's
`shortProb = 1 − convert(110)` arithmetic is not what the code computes. -/
theorem claim_C8_counterexample :
    checkArbitrage c8Market = Except.ok [c8Record] ∧
    (97/100 : ℚ) < convertOdds 120 + convertOdds (-110) ∧
    calculateArbitrage 120 (-110) < 3/100 := by
  refine ⟨c8_eval, ?_, ?_⟩
  · rw [cv120, cvm110]; norm_num
  · rw [calculateArbitrage_of_lt (by rw [cv120, cvm110]; norm_num),
      cv120, cvm110]
    norm_num

/-- C8 amended: exactly one opportunity is emitted; the code sums the raw
implied probabilities `convert(120) = 5/11 ≈ 0.4545` and
`convert(-110) = 11/21 ≈ 0.5238`, combined `226/231 ≈ 0.9784 < 1`, profit
fraction `5/231 ≈ 0.0216`, stored profit `2.16`. -/
theorem claim_C8_amended :
    checkArbitrage c8Market = Except.ok [c8Record] ∧
    convertOdds 120 = 5/11 ∧ convertOdds (-110) = 11/21 ∧
    convertOdds 120 + convertOdds (-110) = 226/231 ∧
    calculateArbitrage 120 (-110) = 5/231 ∧
    c8Record.lookup ("profit") = some (Val.rat (54/25)) := by
  refine ⟨c8_eval, cv120, cvm110, ?_, ?_, rfl⟩
  · rw [cv120, cvm110]; norm_num
  · rw [calculateArbitrage_of_lt (by rw [cv120, cvm110]; norm_num),
      cv120, cvm110]
    norm_num

/-- C9: the conversion is total; odds = 0 takes the non-positive branch
and returns 0, the least possible implied probability, so a zero-odds
quote can never suppress a value play that any other quote would admit. -/
theorem claim_C9 :
    convertOdds 0 = 0 ∧
    (∀ (o : ℤ) (sp : ℚ),
      sp > convertOdds o + 1/20 → sp > convertOdds 0 + 1/20) := by
  have h0 : convertOdds 0 = 0 := by norm_num [convertOdds]
  refine ⟨h0, fun o sp hsp => ?_⟩
  have hnn := convertOdds_nonneg o
  rw [h0]
  linarith

/-- Witness for C9: a projection beating +50 odds also beats zero odds. -/
theorem claim_C9_witness :
    (1 : ℚ) > convertOdds 50 + 1/20 ∧ (1 : ℚ) > convertOdds 0 + 1/20 := by
  have h : (1 : ℚ) > convertOdds 50 + 1/20 := by norm_num [convertOdds]
  exact ⟨h, (claim_C9).2 50 1 h⟩

/-- C10 counterexample: the pair +10000 / -9999 qualifies (its profit
fraction `1/1019999` is strictly positive), yet the stored, 2-decimal
rounded profit is exactly 0 — not strictly positive. -/
theorem claim_C10_counterexample :
    checkArbitrage c10Market = Except.ok [c10Record] ∧
    c10Record.lookup ("profit") = some (Val.rat 0) ∧
    0 < calculateArbitrage 10000 (-9999) := by
  refine ⟨c10_eval, rfl, ?_⟩
  rw [calculateArbitrage_pos_iff, cv10000, cvm9999]
  norm_num

/-- C10 amended: every emitted opportunity stores
`profit = round(100 × (1 − (p1 + p2)), 2)`, which is nonnegative (but can
be exactly 0, so not always strictly positive). -/
theorem claim_C10_amended (market : Market) (l : List Record) (r : Record)
    (h : checkArbitrage market = Except.ok l) (hr : r ∈ l) :
    ∃ o1 o2 : ℤ,
      r.lookup ("odds1") = some (Val.int o1) ∧
      r.lookup ("odds2") = some (Val.int o2) ∧
      convertOdds o1 + convertOdds o2 < 1 ∧
      r.lookup ("profit") = some (Val.rat
        (roundTo 2 (100 * (1 - (convertOdds o1 + convertOdds o2))))) ∧
      0 ≤ roundTo 2 (100 * (1 - (convertOdds o1 + convertOdds o2))) := by
  obtain ⟨pl, ty, b1, b2, o1, o2, harb, heq⟩ :=
    checkArbitrage_shape market l h r hr
  have hlt : convertOdds o1 + convertOdds o2 < 1 :=
    (calculateArbitrage_pos_iff o1 o2).mp harb
  have harbeq : calculateArbitrage o1 o2 =
      1 - (convertOdds o1 + convertOdds o2) := calculateArbitrage_of_lt hlt
  refine ⟨o1, o2, ?_, ?_, hlt, ?_, ?_⟩
  · rw [heq]; rfl
  · rw [heq]; rfl
  · rw [heq]
    have hlup : (arbRec pl ty b1 b2 o1 o2
        (roundTo 2 (calculateArbitrage o1 o2 * 100))).lookup ("profit") =
        some (Val.rat (roundTo 2 (calculateArbitrage o1 o2 * 100))) := rfl
    rw [hlup, harbeq, mul_comm]
  · exact roundTo_nonneg 2 _ (by nlinarith)

/-- Witness for C10: the concrete emitted opportunity of `c10Market`. -/
theorem claim_C10_witness :
    ∃ o1 o2 : ℤ,
      c10Record.lookup ("odds1") = some (Val.int o1) ∧
      c10Record.lookup ("odds2") = some (Val.int o2) ∧
      convertOdds o1 + convertOdds o2 < 1 ∧
      c10Record.lookup ("profit") = some (Val.rat
        (roundTo 2 (100 * (1 - (convertOdds o1 + convertOdds o2))))) ∧
      0 ≤ roundTo 2 (100 * (1 - (convertOdds o1 + convertOdds o2))) :=
  claim_C10_amended c10Market [c10Record] c10Record c10_eval (by simp)

end Omni
